import Mathlib

/-!
Verification of the go-linenoise line editor (`linenoise.go`).

The Go source is shallowly embedded: the editor state (`LineNoise`'s
buffer-related fields) becomes `LineState`; every buffer-mutating method
becomes a pure function `LineState → Option LineState`, where `none`
models a Go runtime panic (slice index out of range).  Machine `uint`
values are `Nat`s together with explicit `% 2^64` wraparound exactly at
the spots where the Go code can overflow or underflow.  Terminal writes
are assumed to succeed (they never alter the editor state), and reading
from stdin is modelled by consuming a `List Nat` of input bytes.
-/

namespace Linenoise

/-- Number of values of the Go `uint` type (64-bit). -/
def U64 : Nat := 2 ^ 64

/-- Go `uint` subtraction `a - b` (wraps modulo `2^64`), for `b ≤ 2^64`. -/
def usub (a b : Nat) : Nat := (a + (U64 - b)) % U64

/-- `const MaxLine = 4096` from the source. -/
def MaxLine : Nat := 4096

/-- `historyNext = 0` from the source. -/
def historyNext : Nat := 0

/-- `historyPrev = 1` from the source. -/
def historyPrev : Nat := 1

/-- The buffer-editing fields of the Go `LineNoise` struct: `buf` (the
fixed backing byte slice), `bufLen`, `pos` and `editLen` (all Go `uint`).
Rendering/terminal fields (`prompt`, `cols`, ...) only affect output, not
the editing state, and are modelled separately for the renderer. -/
structure LineState where
  buf : List Nat
  bufLen : Nat
  pos : Nat
  editLen : Nat
deriving DecidableEq

/-- Go assignment `l[i] = c` on a byte slice: panics (`none`) out of range. -/
def writeByte (l : List Nat) (i c : Nat) : Option (List Nat) :=
  if i < l.length then some (l.set i c) else none

/-- Go slice expression `l[lo:hi]`: panics (`none`) unless `lo ≤ hi ≤ len l`. -/
def goSlice (l : List Nat) (lo hi : Nat) : Option (List Nat) :=
  if lo ≤ hi ∧ hi ≤ l.length then some ((l.drop lo).take (hi - lo)) else none

/-- Go `copy(l[off:], src)`: copies `min (len src) (len l - off)` bytes of
`src` into `l` starting at `off` (memmove semantics); panics (`none`) when
the destination slice expression `l[off:]` itself is out of range. -/
def goCopy (l : List Nat) (off : Nat) (src : List Nat) : Option (List Nat) :=
  if off ≤ l.length then
    let n := min src.length (l.length - off)
    some (l.take off ++ src.take n ++ l.drop (off + n))
  else none

/-- `editInsert`: insert byte `c` at the cursor.  The terminal write in the
trivial branch is assumed to succeed (it does not change the state), so the
Go function's `-1` error return cannot occur and is not modelled. -/
def editInsert (s : LineState) (c : Nat) : Option LineState :=
  if s.editLen < s.bufLen then
    if s.editLen = s.pos then do
      let b1 ← writeByte s.buf s.pos c
      let b2 ← writeByte b1 (s.editLen + 1) 0
      some { buf := b2, bufLen := s.bufLen, pos := s.pos + 1, editLen := s.editLen + 1 }
    else do
      let src ← goSlice s.buf s.pos s.editLen
      let b1 ← goCopy s.buf (s.pos + 1) src
      let b2 ← writeByte b1 s.pos c
      let b3 ← writeByte b2 (s.editLen + 1) 0
      some { buf := b3, bufLen := s.bufLen, pos := s.pos + 1, editLen := s.editLen + 1 }
  else some s

/-- `editMoveLeft`. -/
def editMoveLeft (s : LineState) : LineState :=
  if s.pos > 0 then { s with pos := s.pos - 1 } else s

/-- `editMoveRight`. -/
def editMoveRight (s : LineState) : LineState :=
  if s.pos ≠ s.editLen then { s with pos := s.pos + 1 } else s

/-- `editMoveHome`. -/
def editMoveHome (s : LineState) : LineState :=
  if s.pos ≠ 0 then { s with pos := 0 } else s

/-- `editMoveEnd`. -/
def editMoveEnd (s : LineState) : LineState :=
  if s.pos ≠ s.editLen then { s with pos := s.editLen } else s

/-- `editHistoryNext`: the entire body is commented out in the source, so
the function does nothing. -/
def editHistoryNext (s : LineState) (_dir : Nat) : LineState := s

/-- `editDelete` (forward delete at the cursor). -/
def editDelete (s : LineState) : Option LineState :=
  if s.editLen > 0 ∧ s.pos < s.editLen then do
    let src ← goSlice s.buf (s.pos + 1) s.editLen
    let b1 ← goCopy s.buf s.pos src
    let b2 ← writeByte b1 (s.editLen - 1) 0
    some { s with buf := b2, editLen := s.editLen - 1 }
  else some s

/-- `editBackspace`. -/
def editBackspace (s : LineState) : Option LineState :=
  if s.pos > 0 ∧ s.editLen > 0 then do
    let src ← goSlice s.buf s.pos s.editLen
    let b1 ← goCopy s.buf (s.pos - 1) src
    let b2 ← writeByte b1 (s.editLen - 1) 0
    some { s with buf := b2, pos := s.pos - 1, editLen := s.editLen - 1 }
  else some s

/-- First loop of `editDeletePrevWord`:
`for l.pos > 0 && l.buf[l.pos-1] == ' ' { l.pos-- }`. -/
def skipSpacesBack (buf : List Nat) : Nat → Option Nat
  | 0 => some 0
  | p + 1 =>
    match buf.get? p with
    | none => none
    | some b => if b = 32 then skipSpacesBack buf p else some (p + 1)

/-- Second loop of `editDeletePrevWord`:
`for l.pos > 0 && l.buf[l.pos-1] != ' ' { l.pos-- }`. -/
def skipNonSpacesBack (buf : List Nat) : Nat → Option Nat
  | 0 => some 0
  | p + 1 =>
    match buf.get? p with
    | none => none
    | some b => if b ≠ 32 then skipNonSpacesBack buf p else some (p + 1)

/-- `editDeletePrevWord`.  `diff := oldPos - l.pos` cannot underflow (the
loops only ever decrement `l.pos`), while `l.editLen -= diff` is a Go
`uint` subtraction and is modelled with `usub`. -/
def editDeletePrevWord (s : LineState) : Option LineState := do
  let p1 ← skipSpacesBack s.buf s.pos
  let p2 ← skipNonSpacesBack s.buf p1
  let diff := s.pos - p2
  let src ← goSlice s.buf s.pos (s.editLen + 1)
  let b1 ← goCopy s.buf p2 src
  some { s with buf := b1, pos := p2, editLen := usub s.editLen diff }

/-- The inline `CTRL_U` case of `edit`: `l.buf[0] = 0; l.pos = 0; l.editLen = 0`. -/
def deleteWholeLine (s : LineState) : Option LineState := do
  let b ← writeByte s.buf 0 0
  some { s with buf := b, pos := 0, editLen := 0 }

/-- The inline `CTRL_K` case of `edit`: `buf[l.pos] = 0; l.editLen = l.pos`. -/
def deleteToEndOfLine (s : LineState) : Option LineState := do
  let b ← writeByte s.buf s.pos 0
  some { s with buf := b, editLen := s.pos }

/-- The inline `CTRL_T` case of `edit`: swap the byte under the cursor with
the previous one. -/
def editSwap (s : LineState) : Option LineState :=
  if s.pos > 0 ∧ s.pos < s.editLen then do
    let a ← s.buf.get? (s.pos - 1)
    let b ← s.buf.get? s.pos
    let b1 ← writeByte s.buf (s.pos - 1) b
    let b2 ← writeByte b1 s.pos a
    some { s with buf := b2,
                  pos := if s.pos ≠ s.editLen - 1 then s.pos + 1 else s.pos }
  else some s

/-- The `edit` read–decode–apply loop.  Bytes are consumed from `input`;
`ReadByte` failing (stream exhausted) returns `int(l.editLen)`, exactly as
in the source.  A `break` out of an escape sequence with the stream already
exhausted is followed in Go by one more failing `ReadByte`, which likewise
returns `int(l.editLen)`; those paths are inlined here so that the
recursion is structural on `input`.  `none` models a Go panic inside one of
the buffer operations.  Terminal writes (prompt, refresh) do not alter the
editing state and are assumed to succeed. -/
def edit (s : LineState) : List Nat → Option (Int × LineState)
  | [] => some ((s.editLen : Int), s)
  | c :: rest =>
    if c = 13 then some ((s.editLen : Int), s)
    else if c = 3 then some (-1, s)
    else if c = 127 ∨ c = 8 then
      match editBackspace s with
      | none => none
      | some s1 => edit s1 rest
    else if c = 4 then
      if s.editLen > 0 then
        match editDelete s with
        | none => none
        | some s1 => edit s1 rest
      else some (-1, s)
    else if c = 20 then
      match editSwap s with
      | none => none
      | some s1 => edit s1 rest
    else if c = 2 then edit (editMoveLeft s) rest
    else if c = 6 then edit (editMoveRight s) rest
    else if c = 16 then edit (editHistoryNext s historyPrev) rest
    else if c = 14 then edit (editHistoryNext s historyNext) rest
    else if c = 27 then
      match rest with
      | [] => some ((s.editLen : Int), s)
      | [_] => some ((s.editLen : Int), s)
      | seq0 :: seq1 :: rest2 =>
        if seq0 = 91 then
          if 48 ≤ seq1 ∧ seq1 ≤ 57 then
            match rest2 with
            | [] => some ((s.editLen : Int), s)
            | seq2 :: rest3 =>
              if seq2 = 126 ∧ seq1 = 51 then
                match editDelete s with
                | none => none
                | some s1 => edit s1 rest3
              else edit s rest3
          else
            if seq1 = 65 then edit (editHistoryNext s historyPrev) rest2
            else if seq1 = 66 then edit (editHistoryNext s historyNext) rest2
            else if seq1 = 67 then edit (editMoveRight s) rest2
            else if seq1 = 68 then edit (editMoveLeft s) rest2
            else if seq1 = 72 then edit (editMoveHome s) rest2
            else if seq1 = 70 then edit (editMoveEnd s) rest2
            else edit s rest2
        else if seq0 = 79 then
          if seq1 = 72 then edit (editMoveHome s) rest2
          else if seq1 = 70 then edit (editMoveEnd s) rest2
          else edit s rest2
        else edit s rest2
    else if c = 21 then
      match deleteWholeLine s with
      | none => none
      | some s1 => edit s1 rest
    else if c = 11 then
      match deleteToEndOfLine s with
      | none => none
      | some s1 => edit s1 rest
    else if c = 1 then edit (editMoveHome s) rest
    else if c = 5 then edit (editMoveEnd s) rest
    else if c = 12 then edit s rest
    else if c = 23 then
      match editDeletePrevWord s with
      | none => none
      | some s1 => edit s1 rest
    else
      match editInsert s c with
      | none => none
      | some s1 => edit s1 rest

/-- The editing-state initialisation at the top of `edit`: note `l.bufLen`
is set to `0` and then decremented, underflowing the Go `uint` to
`2^64 - 1`.  (`AddHistory ""` is also called there; it has an empty body.) -/
def editInit : LineState :=
  { buf := (List.replicate MaxLine 0).set 0 0
    bufLen := usub 0 1
    pos := 0
    editLen := 0 }

/-- The tail of `Readline`'s raw-mode branch: `count == -1` becomes
`("", io.EOF)` (the `Bool` is "`io.EOF` was returned"), otherwise
`string(buf[:l.editLen])` with a `nil` error. -/
def readlineFinish (count : Int) (s : LineState) : List Nat × Bool :=
  if count = -1 then ([], true) else (s.buf.take s.editLen, false)

/-- `Readline`'s raw-mode branch (interactive, supported terminal, raw mode
entered successfully): run `edit` on a fresh `MaxLine` buffer and post-process
the count. -/
def Readline (input : List Nat) : Option (List Nat × Bool) :=
  match edit editInit input with
  | none => none
  | some (count, s) => some (readlineFinish count s)

/-- `bufio.Reader.ReadString('\n')`: the consumed line (including the
delimiter when present; on stream end, whatever was read) and the rest. -/
def readStringNewline : List Nat → List Nat × List Nat
  | [] => ([], [])
  | c :: rest =>
    if c = 10 then ([c], rest)
    else
      let r := readStringNewline rest
      (c :: r.1, r.2)

/-- `noTTY`: `r.ReadString('\n')` with the error ignored. -/
def noTTY (input : List Nat) : List Nat := (readStringNewline input).1

/-- `Readline` including its dispatch: not a terminal → `noTTY` with `nil`
error; unsupported terminal → a plain buffered `ReadString('\n')` with
`nil` error; otherwise the raw editing path. -/
def ReadlineFull (isTTY unsupported : Bool) (input : List Nat) :
    Option (List Nat × Bool) :=
  if ¬ isTTY then some (noTTY input, false)
  else if unsupported then some ((readStringNewline input).1, false)
  else Readline input

/-- First loop of `refreshSingleLine`:
`for uint(plen)+pos >= l.cols { bi++; editLen--; pos-- }`;
all four variables are Go `uint`s, so the decrements wrap modulo `2^64`.
The recursion is cut by a fuel argument (the Go loop can run forever when
`cols = 0`). -/
def refreshLoop1 : Nat → Nat → Nat → Nat → Nat → Nat → Nat × Nat × Nat
  | 0, _, _, bi, editLen, pos => (bi, editLen, pos)
  | fuel + 1, plen, cols, bi, editLen, pos =>
    if (plen + pos) % U64 ≥ cols then
      refreshLoop1 fuel plen cols (bi + 1) (usub editLen 1) (usub pos 1)
    else (bi, editLen, pos)

/-- Second loop of `refreshSingleLine`:
`for uint(plen)+editLen > l.cols { editLen-- }`. -/
def refreshLoop2 : Nat → Nat → Nat → Nat → Nat
  | 0, _, _, editLen => editLen
  | fuel + 1, plen, cols, editLen =>
    if (plen + editLen) % U64 > cols then refreshLoop2 fuel plen cols (usub editLen 1)
    else editLen

/-- Go conversion `int(x)` of a `uint` value `x < 2^64`. -/
def uintToInt (x : Nat) : Int :=
  if x < 2 ^ 63 then (x : Int) else (x : Int) - (U64 : Int)

/-- The visible-window computation of `refreshSingleLine`: the window start
`bi`, the visible length `editLen` after both trimming loops, and the
column passed to the cursor-repositioning escape `\r\x1b[%dC`, namely
`int(pos) + plen`.  The byte emission itself (prompt, visible slice, erase,
reposition) only writes to the terminal and is not modelled. -/
def refreshSingleLine (plen cols editLen pos : Nat) : Nat × Nat × Int :=
  let r1 := refreshLoop1 U64 plen cols 0 editLen pos
  let el2 := refreshLoop2 U64 plen cols r1.2.1
  (r1.1, el2, uintToInt r1.2.2 + (plen : Int))

/-- The read loop of `getCursorPosition`: fill `buf` (32 bytes, zeroed)
one byte at a time while `i < len(buf)-1`, stopping on a failed read or on
an `R` (82) byte; returns the buffer, the final `i`, and the unconsumed
input. -/
def cpReadLoop (buf : List Nat) (i : Nat) : List Nat → List Nat × Nat × List Nat
  | [] => (buf, i, [])
  | b :: rest =>
    if i < 31 then
      let buf1 := buf.set i b
      if b = 82 then (buf1, i, rest)
      else cpReadLoop buf1 (i + 1) rest
    else (buf, i, b :: rest)

/-- Modelled from the Go standard library: `strconv.Atoi` on a byte string,
restricted to values without overflow (the terminal replies involved are
small): an optional sign followed by at least one decimal digit. -/
def atoi (s : List Nat) : Option Int :=
  match s with
  | [] => none
  | 45 :: rest =>
    if rest ≠ [] ∧ rest.all (fun c => decide (48 ≤ c ∧ c ≤ 57)) then
      some (-(Int.ofNat (rest.foldl (fun acc c => acc * 10 + (c - 48)) 0)))
    else none
  | 43 :: rest =>
    if rest ≠ [] ∧ rest.all (fun c => decide (48 ≤ c ∧ c ≤ 57)) then
      some (Int.ofNat (rest.foldl (fun acc c => acc * 10 + (c - 48)) 0))
    else none
  | _ =>
    if s.all (fun c => decide (48 ≤ c ∧ c ≤ 57)) then
      some (Int.ofNat (s.foldl (fun acc c => acc * 10 + (c - 48)) 0))
    else none

/-- `getCursorPosition`: request the position (the `\x1b[6n` write is
assumed to succeed), read the reply, and parse it.  `-1` is the graceful
failure value; `none` models the Go panic `els[1]` commits when the reply
contains no `;` separator (`strings.Split` then yields fewer than two
fields).  Returns the parsed column and the unconsumed input. -/
def getCursorPosition (input : List Nat) : Option (Int × List Nat) :=
  let r := cpReadLoop (List.replicate 32 0) 0 input
  let buf := r.1
  let i := r.2.1
  let rest := r.2.2
  if buf.getD 0 0 ≠ 27 ∨ buf.getD 1 0 ≠ 91 then some (-1, rest)
  else
    match goSlice buf 2 i with
    | none => none
    | some payload =>
      match (payload.splitOn 59).get? 1 with
      | none => none
      | some colsBytes =>
        match atoi colsBytes with
        | none => some (-1, rest)
        | some cols => some (cols, rest)

/-- `getColumns`: `sysOk`/`wsCol` are the result of the `TIOCGWINSZ`
ioctl; on failure or a zero column report, fall back to the two
cursor-position probes (the `\x1b[999C` write and the restore write are
assumed to succeed).  `uint(cols)` wraps the parsed `int` modulo `2^64`. -/
def getColumns (sysOk : Bool) (wsCol : Nat) (input : List Nat) : Option Nat :=
  if sysOk = false ∨ wsCol = 0 then
    match getCursorPosition input with
    | none => none
    | some (start, rest) =>
      if start = -1 then some 80
      else
        match getCursorPosition rest with
        | none => none
        | some (cols, _) =>
          if cols = -1 then some 80
          else some ((cols % (U64 : Int)).toNat)
  else some wsCol

/-- The history-related fields of `LineNoise`: `historyLen` (never
written by any function in the source) and `history` (initialised to `[]`
by `New` and never modified). -/
structure HistoryState where
  historyLen : Nat
  history : List String
deriving DecidableEq

/-- `New()`: `history` starts empty. -/
def NewLineNoise : HistoryState := { historyLen := 0, history := [] }

/-- `AddHistory`: the body in the source is empty, so the state is
returned unchanged (despite the doc comment promising insertion and
truncation). -/
def AddHistory (s : HistoryState) (_line : String) : HistoryState := s

/-- `SetHistoryMaxLength`: the body in the source is empty. -/
def SetHistoryMaxLength (s : HistoryState) (_length : Nat) : HistoryState := s

/-- `WriteHistoryToFile`: the body is `return nil` — nothing is written,
so the file contents (modelled as a list of lines) are unchanged and no
error (`false`) is reported. -/
def WriteHistoryToFile (_s : HistoryState) (file : List String) :
    List String × Bool := (file, false)

/-- `LoadHistoryFromFile`: the body is `return nil` — the store is
unchanged and no error (`false`) is reported. -/
def LoadHistoryFromFile (s : HistoryState) (_file : List String) :
    HistoryState × Bool := (s, false)

/-- The editor invariant of the specification: `cursorPos ≤ length ≤
capacity`, where the capacity is the size of the backing buffer (which is
a Go `uint` quantity, hence the range bound). -/
def Inv (s : LineState) : Prop :=
  s.pos ≤ s.editLen ∧ s.editLen ≤ s.buf.length ∧ s.buf.length < U64

instance (s : LineState) : Decidable (Inv s) := by unfold Inv; infer_instance

/-- The EditBuffer operations named by the specification's invariant
clause, mapped to the functions of this file (the two `delete-whole-line`
and `delete-to-end-of-line` operations are inline cases of `edit`). -/
inductive BufOp where
  | insert (c : Nat)
  | deleteForward
  | deleteBackward
  | deletePrevWord
  | moveLeft
  | moveRight
  | moveHome
  | moveEnd
  | deleteWholeLine
  | deleteToEndOfLine

/-- Apply one EditBuffer operation. -/
def applyOp : BufOp → LineState → Option LineState
  | .insert c, s => editInsert s c
  | .deleteForward, s => editDelete s
  | .deleteBackward, s => editBackspace s
  | .deletePrevWord, s => editDeletePrevWord s
  | .moveLeft, s => some (editMoveLeft s)
  | .moveRight, s => some (editMoveRight s)
  | .moveHome, s => some (editMoveHome s)
  | .moveEnd, s => some (editMoveEnd s)
  | .deleteWholeLine, s => deleteWholeLine s
  | .deleteToEndOfLine, s => deleteToEndOfLine s

/-- The state of Claim C2's failing input: the buffer holds `MaxLine - 1`
bytes (every slot but the sentinel one), as reached by typing 4095
printable characters from `editInit`, with `bufLen` carrying the
underflowed value `2^64 - 1` that `edit`'s initialisation assigns. -/
def c2FullState : LineState :=
  { buf := List.replicate MaxLine 0
    bufLen := usub 0 1
    pos := MaxLine - 1
    editLen := MaxLine - 1 }

section BasicLemmas

theorem usub_eq_sub {a b : Nat} (hb : b ≤ a) (ha : a < U64) :
    usub a b = a - b := by
  unfold usub
  have h1 : a + (U64 - b) = U64 + (a - b) := by
    have : b ≤ U64 := le_trans hb (le_of_lt ha)
    omega
  rw [h1, Nat.add_mod_left, Nat.mod_eq_of_lt (by omega)]

theorem usub_zero_one : usub 0 1 = U64 - 1 := by
  unfold usub U64
  norm_num

theorem writeByte_eq_some {l l' : List Nat} {i c : Nat}
    (h : writeByte l i c = some l') : i < l.length ∧ l' = l.set i c := by
  unfold writeByte at h
  split at h
  · exact ⟨by assumption, (Option.some.inj h).symm⟩
  · exact absurd h (by simp)

theorem goSlice_eq_some {l l' : List Nat} {lo hi : Nat}
    (h : goSlice l lo hi = some l') :
    lo ≤ hi ∧ hi ≤ l.length ∧ l' = (l.drop lo).take (hi - lo) := by
  unfold goSlice at h
  split at h
  · next hc => exact ⟨hc.1, hc.2, (Option.some.inj h).symm⟩
  · exact absurd h (by simp)

theorem goCopy_eq_some {l l' src : List Nat} {off : Nat}
    (h : goCopy l off src = some l') :
    off ≤ l.length ∧
      l' = l.take off ++ src.take (min src.length (l.length - off)) ++
        l.drop (off + min src.length (l.length - off)) := by
  unfold goCopy at h
  split at h
  · next hc => exact ⟨hc, (Option.some.inj h).symm⟩
  · exact absurd h (by simp)

theorem goCopy_length {l l' src : List Nat} {off : Nat}
    (h : goCopy l off src = some l') : l'.length = l.length := by
  obtain ⟨h1, h2⟩ := goCopy_eq_some h
  subst h2
  simp [List.length_take, List.length_drop]
  omega

theorem opt_bind_eq_some {α β : Type} {o : Option α} {f : α → Option β} {b : β}
    (h : (o >>= f) = some b) : ∃ a, o = some a ∧ f a = some b := by
  cases o with
  | none => exact absurd h (by simp)
  | some a => exact ⟨a, rfl, h⟩

theorem skipSpacesBack_le {buf : List Nat} :
    ∀ {p q : Nat}, skipSpacesBack buf p = some q → q ≤ p := by
  intro p
  induction p with
  | zero =>
    intro q h
    simp [skipSpacesBack] at h
    omega
  | succ n ih =>
    intro q h
    cases hg : buf.get? n with
    | none =>
      simp only [skipSpacesBack, hg] at h
      exact (Option.noConfusion h)
    | some b =>
      simp only [skipSpacesBack, hg] at h
      split at h
      · exact le_trans (ih h) (by omega)
      · have := Option.some.inj h
        omega

theorem skipNonSpacesBack_le {buf : List Nat} :
    ∀ {p q : Nat}, skipNonSpacesBack buf p = some q → q ≤ p := by
  intro p
  induction p with
  | zero =>
    intro q h
    simp [skipNonSpacesBack] at h
    omega
  | succ n ih =>
    intro q h
    cases hg : buf.get? n with
    | none =>
      simp only [skipNonSpacesBack, hg] at h
      exact (Option.noConfusion h)
    | some b =>
      simp only [skipNonSpacesBack, hg] at h
      split at h
      · exact le_trans (ih h) (by omega)
      · have := Option.some.inj h
        omega

end BasicLemmas

section InvariantLemmas

theorem inv_editInsert {s s' : LineState} {c : Nat} (h : Inv s)
    (he : editInsert s c = some s') : Inv s' := by
  obtain ⟨h1, h2, h3⟩ := h
  unfold editInsert at he
  split at he
  · split at he
    · obtain ⟨b1, hb1, he⟩ := opt_bind_eq_some he
      obtain ⟨b2, hb2, he⟩ := opt_bind_eq_some he
      obtain ⟨hi1, hs1⟩ := writeByte_eq_some hb1
      obtain ⟨hi2, hs2⟩ := writeByte_eq_some hb2
      have hlen1 : b1.length = s.buf.length := by rw [hs1, List.length_set]
      have hlen2 : b2.length = s.buf.length := by rw [hs2, List.length_set, hlen1]
      have hs' := (Option.some.inj he).symm
      subst hs'
      unfold Inv
      simp only []
      rw [hlen2]
      omega
    · obtain ⟨src, hsrc, he⟩ := opt_bind_eq_some he
      obtain ⟨b1, hb1, he⟩ := opt_bind_eq_some he
      obtain ⟨b2, hb2, he⟩ := opt_bind_eq_some he
      obtain ⟨b3, hb3, he⟩ := opt_bind_eq_some he
      have hlen1 : b1.length = s.buf.length := goCopy_length hb1
      obtain ⟨hi2, hs2⟩ := writeByte_eq_some hb2
      obtain ⟨hi3, hs3⟩ := writeByte_eq_some hb3
      have hlen2 : b2.length = s.buf.length := by rw [hs2, List.length_set, hlen1]
      have hlen3 : b3.length = s.buf.length := by rw [hs3, List.length_set, hlen2]
      have hs' := (Option.some.inj he).symm
      subst hs'
      unfold Inv
      simp only []
      rw [hlen3]
      rw [hlen2] at hi3
      omega
  · have hs' := (Option.some.inj he).symm
    subst hs'
    exact ⟨h1, h2, h3⟩

theorem inv_editDelete {s s' : LineState} (h : Inv s)
    (he : editDelete s = some s') : Inv s' := by
  obtain ⟨h1, h2, h3⟩ := h
  unfold editDelete at he
  split at he
  · next hc =>
    obtain ⟨src, hsrc, he⟩ := opt_bind_eq_some he
    obtain ⟨b1, hb1, he⟩ := opt_bind_eq_some he
    obtain ⟨b2, hb2, he⟩ := opt_bind_eq_some he
    have hlen1 : b1.length = s.buf.length := goCopy_length hb1
    obtain ⟨hi2, hs2⟩ := writeByte_eq_some hb2
    have hlen2 : b2.length = s.buf.length := by rw [hs2, List.length_set, hlen1]
    have hs' := (Option.some.inj he).symm
    subst hs'
    unfold Inv
    simp only []
    rw [hlen2]
    omega
  · have hs' := (Option.some.inj he).symm
    subst hs'
    exact ⟨h1, h2, h3⟩

theorem inv_editBackspace {s s' : LineState} (h : Inv s)
    (he : editBackspace s = some s') : Inv s' := by
  obtain ⟨h1, h2, h3⟩ := h
  unfold editBackspace at he
  split at he
  · next hc =>
    obtain ⟨src, hsrc, he⟩ := opt_bind_eq_some he
    obtain ⟨b1, hb1, he⟩ := opt_bind_eq_some he
    obtain ⟨b2, hb2, he⟩ := opt_bind_eq_some he
    have hlen1 : b1.length = s.buf.length := goCopy_length hb1
    obtain ⟨hi2, hs2⟩ := writeByte_eq_some hb2
    have hlen2 : b2.length = s.buf.length := by rw [hs2, List.length_set, hlen1]
    have hs' := (Option.some.inj he).symm
    subst hs'
    unfold Inv
    simp only []
    rw [hlen2]
    omega
  · have hs' := (Option.some.inj he).symm
    subst hs'
    exact ⟨h1, h2, h3⟩

theorem inv_editDeletePrevWord {s s' : LineState} (h : Inv s)
    (he : editDeletePrevWord s = some s') : Inv s' := by
  obtain ⟨h1, h2, h3⟩ := h
  unfold editDeletePrevWord at he
  obtain ⟨p1, hp1, he⟩ := opt_bind_eq_some he
  obtain ⟨p2, hp2, he⟩ := opt_bind_eq_some he
  obtain ⟨src, hsrc, he⟩ := opt_bind_eq_some he
  obtain ⟨b1, hb1, he⟩ := opt_bind_eq_some he
  have e1 := skipSpacesBack_le hp1
  have e2 := skipNonSpacesBack_le hp2
  have hlen1 : b1.length = s.buf.length := goCopy_length hb1
  have husub : usub s.editLen (s.pos - p2) = s.editLen - (s.pos - p2) :=
    usub_eq_sub (by omega) (by omega)
  have hs' := (Option.some.inj he).symm
  subst hs'
  unfold Inv
  simp only []
  rw [husub, hlen1]
  omega

theorem inv_deleteWholeLine {s s' : LineState} (h : Inv s)
    (he : deleteWholeLine s = some s') : Inv s' := by
  obtain ⟨h1, h2, h3⟩ := h
  unfold deleteWholeLine at he
  obtain ⟨b1, hb1, he⟩ := opt_bind_eq_some he
  obtain ⟨hi1, hs1⟩ := writeByte_eq_some hb1
  have hlen1 : b1.length = s.buf.length := by rw [hs1, List.length_set]
  have hs' := (Option.some.inj he).symm
  subst hs'
  unfold Inv
  simp only []
  rw [hlen1]
  omega

theorem inv_deleteToEndOfLine {s s' : LineState} (h : Inv s)
    (he : deleteToEndOfLine s = some s') : Inv s' := by
  obtain ⟨h1, h2, h3⟩ := h
  unfold deleteToEndOfLine at he
  obtain ⟨b1, hb1, he⟩ := opt_bind_eq_some he
  obtain ⟨hi1, hs1⟩ := writeByte_eq_some hb1
  have hlen1 : b1.length = s.buf.length := by rw [hs1, List.length_set]
  have hs' := (Option.some.inj he).symm
  subst hs'
  unfold Inv
  simp only []
  rw [hlen1]
  omega

theorem inv_editMoveLeft {s : LineState} (h : Inv s) : Inv (editMoveLeft s) := by
  obtain ⟨h1, h2, h3⟩ := h
  unfold editMoveLeft Inv
  split
  · have hp : s.pos - 1 ≤ s.editLen := by omega
    exact ⟨hp, h2, h3⟩
  · exact ⟨h1, h2, h3⟩

theorem inv_editMoveRight {s : LineState} (h : Inv s) : Inv (editMoveRight s) := by
  obtain ⟨h1, h2, h3⟩ := h
  unfold editMoveRight Inv
  split
  · next hne =>
    have hp : s.pos + 1 ≤ s.editLen := by omega
    exact ⟨hp, h2, h3⟩
  · exact ⟨h1, h2, h3⟩

theorem inv_editMoveHome {s : LineState} (h : Inv s) : Inv (editMoveHome s) := by
  obtain ⟨h1, h2, h3⟩ := h
  unfold editMoveHome Inv
  split
  · exact ⟨Nat.zero_le _, h2, h3⟩
  · exact ⟨h1, h2, h3⟩

theorem inv_editMoveEnd {s : LineState} (h : Inv s) : Inv (editMoveEnd s) := by
  obtain ⟨h1, h2, h3⟩ := h
  unfold editMoveEnd Inv
  split
  · exact ⟨le_refl _, h2, h3⟩
  · exact ⟨h1, h2, h3⟩

end InvariantLemmas

section ClaimC4

/-- Claim C4: the initial editor state satisfies the buffer invariant
`cursorPos ≤ length ≤ capacity`, and every EditBuffer operation of the
specification's list (insert, delete-forward, delete-backward,
delete-previous-word, the four cursor moves, delete-whole-line and
delete-to-end-of-line) preserves it: whenever the operation completes on a
state satisfying the invariant, the resulting state satisfies it again. -/
theorem c4_invariant_preserved :
    Inv editInit
    ∧ ∀ (op : BufOp) (s s' : LineState), Inv s → applyOp op s = some s' → Inv s' := by
  constructor
  · unfold Inv editInit
    rw [List.length_set, List.length_replicate]
    unfold MaxLine U64
    norm_num
  · intro op s s' h he
    cases op with
    | insert c => exact inv_editInsert h he
    | deleteForward => exact inv_editDelete h he
    | deleteBackward => exact inv_editBackspace h he
    | deletePrevWord => exact inv_editDeletePrevWord h he
    | moveLeft =>
      have hs' := (Option.some.inj he).symm
      subst hs'
      exact inv_editMoveLeft h
    | moveRight =>
      have hs' := (Option.some.inj he).symm
      subst hs'
      exact inv_editMoveRight h
    | moveHome =>
      have hs' := (Option.some.inj he).symm
      subst hs'
      exact inv_editMoveHome h
    | moveEnd =>
      have hs' := (Option.some.inj he).symm
      subst hs'
      exact inv_editMoveEnd h
    | deleteWholeLine => exact inv_deleteWholeLine h he
    | deleteToEndOfLine => exact inv_deleteToEndOfLine h he

/-- Witness for C4: the preservation part applied to inserting byte 97
into a concrete 4-byte buffer holding 2 bytes with the cursor at 1. -/
theorem c4_invariant_preserved_witness :
    Inv { buf := [0, 0, 0, 0], bufLen := 5, pos := 1, editLen := 2 }
    ∧ ∃ s', applyOp (.insert 97) { buf := [0, 0, 0, 0], bufLen := 5, pos := 1, editLen := 2 }
          = some s' ∧ Inv s' := by
  refine ⟨by decide, ⟨{ buf := [0, 97, 0, 0], bufLen := 5, pos := 2, editLen := 3 }, by decide, ?_⟩⟩
  exact c4_invariant_preserved.2 (.insert 97)
    { buf := [0, 0, 0, 0], bufLen := 5, pos := 1, editLen := 2 }
    { buf := [0, 97, 0, 0], bufLen := 5, pos := 2, editLen := 3 }
    (by decide) (by decide)

end ClaimC4

section ClaimC9

theorem skipSpacesBack_spec {buf : List Nat} :
    ∀ {p : Nat}, p ≤ buf.length →
    ∃ q, skipSpacesBack buf p = some q ∧ q ≤ p ∧
      (∀ j, q ≤ j → j < p → buf.get? j = some 32) := by
  intro p
  induction p with
  | zero =>
    exact fun _ => ⟨0, rfl, le_refl 0, fun j hj1 hj2 => absurd hj2 (by omega)⟩
  | succ n ih =>
    intro hp
    cases hg : buf.get? n with
    | none => exact absurd (List.get?_eq_none.mp hg) (by omega)
    | some b =>
      by_cases h32 : b = 32
      · obtain ⟨q, hq1, hq2, hq3⟩ := ih (by omega)
        refine ⟨q, ?_, by omega, ?_⟩
        · simp only [skipSpacesBack, hg, if_pos h32]
          exact hq1
        · intro j hj1 hj2
          by_cases hj : j < n
          · exact hq3 j hj1 hj
          · have hjn : j = n := by omega
            subst hjn
            rw [hg, h32]
      · refine ⟨n + 1, ?_, le_refl _, fun j hj1 hj2 => by omega⟩
        simp only [skipSpacesBack, hg, if_neg h32]

theorem skipNonSpacesBack_spec {buf : List Nat} :
    ∀ {p : Nat}, p ≤ buf.length →
    ∃ q, skipNonSpacesBack buf p = some q ∧ q ≤ p ∧
      (∀ j, q ≤ j → j < p → ∃ b, buf.get? j = some b ∧ b ≠ 32) := by
  intro p
  induction p with
  | zero =>
    exact fun _ => ⟨0, rfl, le_refl 0, fun j hj1 hj2 => absurd hj2 (by omega)⟩
  | succ n ih =>
    intro hp
    cases hg : buf.get? n with
    | none => exact absurd (List.get?_eq_none.mp hg) (by omega)
    | some b =>
      by_cases h32 : b ≠ 32
      · obtain ⟨q, hq1, hq2, hq3⟩ := ih (by omega)
        refine ⟨q, ?_, by omega, ?_⟩
        · simp only [skipNonSpacesBack, hg, if_pos h32]
          exact hq1
        · intro j hj1 hj2
          by_cases hj : j < n
          · exact hq3 j hj1 hj
          · have hjn : j = n := by omega
            subst hjn
            exact ⟨b, hg, h32⟩
      · refine ⟨n + 1, ?_, le_refl _, fun j hj1 hj2 => by omega⟩
        simp only [skipNonSpacesBack, hg, if_neg h32]

/-- Claim C9: `editDeletePrevWord` first skips backward over the
consecutive spaces ending at the cursor, then over the consecutive
non-spaces before them, arriving at `p2`; it removes the span
`[p2, cursorPos)`, leaves the cursor at `p2`, and shrinks the length by
the size of the removed span: the first `editLen` bytes become the prefix
up to `p2` followed by the old bytes from the cursor up to `editLen`. -/
theorem c9_deletePrevWord_spec (s : LineState) (h1 : s.pos ≤ s.editLen)
    (h2 : s.editLen < s.buf.length) (h3 : s.buf.length < U64) :
    ∃ p1 p2 s',
      skipSpacesBack s.buf s.pos = some p1
      ∧ skipNonSpacesBack s.buf p1 = some p2
      ∧ p2 ≤ p1 ∧ p1 ≤ s.pos
      ∧ (∀ j, p1 ≤ j → j < s.pos → s.buf.get? j = some 32)
      ∧ (∀ j, p2 ≤ j → j < p1 → ∃ b, s.buf.get? j = some b ∧ b ≠ 32)
      ∧ editDeletePrevWord s = some s'
      ∧ s'.pos = p2
      ∧ s'.editLen = s.editLen - (s.pos - p2)
      ∧ s'.buf.take s'.editLen =
          s.buf.take p2 ++ (s.buf.take s.editLen).drop s.pos := by
  obtain ⟨p1, hp1, hle1, hsp⟩ := skipSpacesBack_spec (le_trans h1 (le_of_lt h2))
  obtain ⟨p2, hp2, hle2, hnsp⟩ :=
    skipNonSpacesBack_spec (le_trans hle1 (le_trans h1 (le_of_lt h2)))
  have hles : p2 ≤ s.pos := le_trans hle2 hle1
  have hslice : goSlice s.buf s.pos (s.editLen + 1) =
      some ((s.buf.drop s.pos).take (s.editLen + 1 - s.pos)) := by
    unfold goSlice
    rw [if_pos ⟨by omega, by omega⟩]
  have hsrclen : ((s.buf.drop s.pos).take (s.editLen + 1 - s.pos)).length
      = s.editLen + 1 - s.pos := by
    rw [List.length_take, List.length_drop]
    omega
  have hn : min ((s.buf.drop s.pos).take (s.editLen + 1 - s.pos)).length
      (s.buf.length - p2) = s.editLen + 1 - s.pos := by
    rw [hsrclen]
    omega
  have hcopy : goCopy s.buf p2 ((s.buf.drop s.pos).take (s.editLen + 1 - s.pos)) =
      some (s.buf.take p2 ++ (s.buf.drop s.pos).take (s.editLen + 1 - s.pos) ++
        s.buf.drop (p2 + (s.editLen + 1 - s.pos))) := by
    unfold goCopy
    rw [if_pos (by omega)]
    simp only [hn, List.take_take, min_self]
  have husub : usub s.editLen (s.pos - p2) = s.editLen - (s.pos - p2) :=
    usub_eq_sub (by omega) (by omega)
  have hfun : editDeletePrevWord s =
      some { s with
        buf := s.buf.take p2 ++ (s.buf.drop s.pos).take (s.editLen + 1 - s.pos) ++
          s.buf.drop (p2 + (s.editLen + 1 - s.pos)),
        pos := p2,
        editLen := usub s.editLen (s.pos - p2) } := by
    unfold editDeletePrevWord
    rw [hp1]
    simp only [Option.bind_eq_bind, Option.some_bind]
    rw [hp2]
    simp only [Option.bind_eq_bind, Option.some_bind]
    rw [hslice]
    simp only [Option.bind_eq_bind, Option.some_bind]
    rw [hcopy]
    simp only [Option.bind_eq_bind, Option.some_bind]
  refine ⟨p1, p2, _, hp1, hp2, hle2, hle1, hsp, hnsp, hfun, rfl, husub, ?_⟩
  show (s.buf.take p2 ++ (s.buf.drop s.pos).take (s.editLen + 1 - s.pos) ++
      s.buf.drop (p2 + (s.editLen + 1 - s.pos))).take (usub s.editLen (s.pos - p2)) =
    s.buf.take p2 ++ (s.buf.take s.editLen).drop s.pos
  rw [husub]
  have heq : s.editLen - (s.pos - p2) = p2 + (s.editLen - s.pos) := by omega
  rw [heq]
  rw [List.take_append_eq_append_take, List.take_append_eq_append_take]
  have hlen1 : (s.buf.take p2).length = p2 := by
    rw [List.length_take]
    omega
  rw [hlen1]
  rw [List.take_take]
  have e3 : min (p2 + (s.editLen - s.pos)) p2 = p2 := by omega
  have e2 : p2 + (s.editLen - s.pos) - p2 = s.editLen - s.pos := by omega
  rw [e3, e2]
  have e4 : ((s.buf.drop s.pos).take (s.editLen + 1 - s.pos)).take (s.editLen - s.pos)
      = (s.buf.drop s.pos).take (s.editLen - s.pos) := by
    rw [List.take_take]
    congr 1
    omega
  rw [e4]
  rw [List.length_append, hlen1, hsrclen]
  have e5 : p2 + (s.editLen - s.pos) - (p2 + (s.editLen + 1 - s.pos)) = 0 := by omega
  rw [e5, List.take_zero, List.append_nil]
  rw [List.drop_take]

/-- Witness for C9: the theorem applied to the buffer holding
`"hello world"` (plus its sentinel byte) with the cursor at position 11,
together with the resulting content `"hello "` and cursor 6, checked by
evaluation. -/
theorem c9_deletePrevWord_witness :
    ((11 : Nat) ≤ 11 ∧ (11 : Nat) < 12 ∧ (12 : Nat) < U64)
    ∧ (editDeletePrevWord
          { buf := [104, 101, 108, 108, 111, 32, 119, 111, 114, 108, 100, 0],
            bufLen := 5000, pos := 11, editLen := 11 }).map
        (fun t => (t.buf.take t.editLen, t.pos))
        = some ([104, 101, 108, 108, 111, 32], 6)
    ∧ (∃ p1 p2 s',
        skipSpacesBack [104, 101, 108, 108, 111, 32, 119, 111, 114, 108, 100, 0] 11
            = some p1
        ∧ skipNonSpacesBack [104, 101, 108, 108, 111, 32, 119, 111, 114, 108, 100, 0] p1
            = some p2
        ∧ p2 ≤ p1 ∧ p1 ≤ 11
        ∧ (∀ j, p1 ≤ j → j < 11 →
            [104, 101, 108, 108, 111, 32, 119, 111, 114, 108, 100, 0].get? j = some 32)
        ∧ (∀ j, p2 ≤ j → j < p1 →
            ∃ b, [104, 101, 108, 108, 111, 32, 119, 111, 114, 108, 100, 0].get? j = some b
              ∧ b ≠ 32)
        ∧ editDeletePrevWord
            { buf := [104, 101, 108, 108, 111, 32, 119, 111, 114, 108, 100, 0],
              bufLen := 5000, pos := 11, editLen := 11 } = some s'
        ∧ s'.pos = p2
        ∧ s'.editLen = 11 - (11 - p2)
        ∧ s'.buf.take s'.editLen =
            [104, 101, 108, 108, 111, 32, 119, 111, 114, 108, 100, 0].take p2 ++
              ([104, 101, 108, 108, 111, 32, 119, 111, 114, 108, 100, 0].take 11).drop 11) :=
  ⟨⟨by decide, by decide, by decide⟩, by decide,
    c9_deletePrevWord_spec
      { buf := [104, 101, 108, 108, 111, 32, 119, 111, 114, 108, 100, 0],
        bufLen := 5000, pos := 11, editLen := 11 }
      (by decide) (by decide) (by decide)⟩

end ClaimC9

section ClaimC1

set_option smartUnfolding false in
/-- Claim C1 (amended): decoding ENTER makes `edit` return the byte count
`int(l.editLen)` and `Readline` then returns exactly the first `editLen`
buffer bytes with no error; decoding Ctrl-C makes `edit` return `-1`, and
decoding Ctrl-D on an empty buffer also makes `edit` return `-1` — both
are mapped by `Readline` to the identical `("", io.EOF)` result, so
interrupt and end-of-input are terminal but NOT distinct from each other. -/
theorem c1_terminal_results (s : LineState) (rest : List Nat) :
    edit s (13 :: rest) = some ((s.editLen : Int), s)
    ∧ edit s (3 :: rest) = some (-1, s)
    ∧ (s.editLen = 0 → edit s (4 :: rest) = some (-1, s))
    ∧ readlineFinish (-1) s = ([], true)
    ∧ readlineFinish ((s.editLen : Int)) s = (s.buf.take s.editLen, false) := by
  refine ⟨rfl, rfl, ?_, by simp [readlineFinish], ?_⟩
  · intro h
    obtain ⟨b, bl, p, e⟩ := s
    simp only [] at h
    subst h
    rfl
  · have hne : ((s.editLen : Int)) ≠ -1 := by omega
    simp [readlineFinish, hne]

/-- Witness for C1: the amended theorem applied at the freshly initialised
editor state, whose buffer is empty, with an empty remaining stream. -/
theorem c1_terminal_results_witness :
    edit editInit [3] = some (-1, editInit)
    ∧ edit editInit [4] = some (-1, editInit)
    ∧ readlineFinish (-1) editInit = ([], true) := by
  refine ⟨(c1_terminal_results editInit []).2.1,
    (c1_terminal_results editInit []).2.2.1 rfl,
    (c1_terminal_results editInit []).2.2.2.1⟩

/-- Claim C1 counterexample: Ctrl-C (interrupt) and Ctrl-D on the empty
buffer give the very same `Readline` result `("", io.EOF)`; the
end-of-input result is the same result as interrupt, refuting the claimed
distinctness. -/
theorem c1_interrupt_eof_conflated :
    Readline [3] = some ([], true)
    ∧ Readline [4] = some ([], true)
    ∧ Readline [3] = Readline [4] := ⟨rfl, rfl, rfl⟩

end ClaimC1

section ClaimC3

/-- Claim C3 counterexample: when the byte stream ends with no terminal
command decoded, `Readline` returns the buffer as a successfully submitted
line with no error — here the empty stream yields `("", nil)`, the very
result that submitting with ENTER yields — rather than a distinct
end-of-input error result. -/
theorem c3_eof_reported_as_submit :
    Readline [] = some ([], false) ∧ Readline [] = Readline [13] := ⟨rfl, rfl⟩

set_option smartUnfolding false in
/-- Claim C3 (amended): if reading the next input byte fails because the
stream has ended, `edit` returns `int(l.editLen)` — exactly the return
value of the ENTER case — so the session ends as a normal submit of the
current buffer with no error, not with a distinct end-of-input result. -/
theorem c3_eof_behaves_as_submit (s : LineState) :
    edit s [] = some ((s.editLen : Int), s) ∧ edit s [] = edit s [13] := ⟨rfl, rfl⟩

/-- Witness for C3: the amended theorem applied at the freshly initialised
editor state. -/
theorem c3_eof_behaves_as_submit_witness :
    edit editInit [] = some ((editInit.editLen : Int), editInit)
    ∧ edit editInit [] = edit editInit [13] :=
  c3_eof_behaves_as_submit editInit

end ClaimC3

section ClaimC2

/-- Claim C2 (code bug): in the state reached after typing 4095 bytes —
the buffer full up to the sentinel slot, with `bufLen` holding the
underflowed value assigned by `edit`'s initialisation — inserting one more
byte is NOT a silent no-op: because `editLen < bufLen` compares against
`2^64 - 1`, the guard passes and the write of the terminating zero at
index `editLen + 1 = 4096` falls outside the 4096-byte buffer: a Go
out-of-range panic (`none`). -/
theorem c2_insert_at_capacity_panics : editInsert c2FullState 97 = none := by
  have hlt : MaxLine - 1 < usub 0 1 := by
    rw [usub_zero_one]
    unfold MaxLine U64
    norm_num
  have hpos : MaxLine - 1 < (List.replicate MaxLine (0 : Nat)).length := by
    rw [List.length_replicate]
    unfold MaxLine
    norm_num
  have hlen2 : ¬ (MaxLine - 1 + 1 <
      ((List.replicate MaxLine (0 : Nat)).set (MaxLine - 1) 97).length) := by
    rw [List.length_set, List.length_replicate]
    unfold MaxLine
    norm_num
  unfold editInsert c2FullState writeByte
  rw [if_pos hlt, if_pos rfl, if_pos hpos]
  simp [hlen2]
  unfold MaxLine
  omega

end ClaimC2

section ClaimC5

theorem refreshLoop1_spec (plen cols : Nat) (hpc : plen < cols) :
    ∀ fuel pos editLen bi, pos ≤ editLen → plen + editLen < U64 → pos < fuel →
    ∃ k, k ≤ pos ∧
      refreshLoop1 fuel plen cols bi editLen pos = (bi + k, editLen - k, pos - k) ∧
      plen + (pos - k) < cols := by
  intro fuel
  induction fuel with
  | zero => exact fun pos editLen bi _ _ h3 => absurd h3 (Nat.not_lt_zero _)
  | succ n ih =>
    intro pos editLen bi h1 h2 h3
    by_cases hcond : (plen + pos) % U64 ≥ cols
    · have hmod : (plen + pos) % U64 = plen + pos := Nat.mod_eq_of_lt (by omega)
      have hpos1 : 1 ≤ pos := by omega
      have hu1 : usub editLen 1 = editLen - 1 := usub_eq_sub (by omega) (by omega)
      have hu2 : usub pos 1 = pos - 1 := usub_eq_sub hpos1 (by omega)
      obtain ⟨k, hk1, hk2, hk3⟩ :=
        ih (pos - 1) (editLen - 1) (bi + 1) (by omega) (by omega) (by omega)
      refine ⟨k + 1, by omega, ?_, by omega⟩
      have e1 : bi + 1 + k = bi + (k + 1) := by omega
      have e2 : editLen - 1 - k = editLen - (k + 1) := by omega
      have e3 : pos - 1 - k = pos - (k + 1) := by omega
      simp only [refreshLoop1]
      rw [if_pos hcond, hu1, hu2, hk2, e1, e2, e3]
    · have hmod : (plen + pos) % U64 = plen + pos := Nat.mod_eq_of_lt (by omega)
      refine ⟨0, Nat.zero_le _, ?_, by omega⟩
      simp only [refreshLoop1]
      rw [if_neg hcond]
      simp

theorem refreshLoop2_spec (plen cols : Nat) (hpc : plen < cols) :
    ∀ fuel el, plen + el < U64 → el < fuel →
    refreshLoop2 fuel plen cols el = min el (cols - plen) := by
  intro fuel
  induction fuel with
  | zero => exact fun el _ h2 => absurd h2 (Nat.not_lt_zero _)
  | succ n ih =>
    intro el h1 h2
    by_cases hcond : (plen + el) % U64 > cols
    · have hmod : (plen + el) % U64 = plen + el := Nat.mod_eq_of_lt (by omega)
      have hel : 1 ≤ el := by omega
      have hu : usub el 1 = el - 1 := usub_eq_sub hel (by omega)
      simp only [refreshLoop2]
      rw [if_pos hcond, hu, ih (el - 1) (by omega) (by omega)]
      omega
    · have hmod : (plen + el) % U64 = plen + el := Nat.mod_eq_of_lt (by omega)
      simp only [refreshLoop2]
      rw [if_neg hcond]
      omega

/-- Claim C5 (amended): provided the prompt is strictly narrower than the
terminal (`plen < cols`; the unguarded `uint` decrements in the source
underflow otherwise) and the quantities are in `uint` range
(`cols ≤ 2^63`, `plen + editLen < 2^64`) with `pos ≤ editLen`, the
single-line refresh computes a window start `start ≤ pos` and a visible
length with `plen + visibleLen ≤ cols`, keeps the cursor inside the
window (`pos - start ≤ visibleLen`), and repositions the cursor to column
`plen + (pos - start)`. -/
theorem c5_window_spec (plen cols editLen pos : Nat)
    (h1 : plen < cols) (h2 : cols ≤ 2 ^ 63) (h3 : pos ≤ editLen)
    (h4 : plen + editLen < U64) :
    plen + (refreshSingleLine plen cols editLen pos).2.1 ≤ cols
    ∧ (refreshSingleLine plen cols editLen pos).1 ≤ pos
    ∧ pos - (refreshSingleLine plen cols editLen pos).1 ≤
        (refreshSingleLine plen cols editLen pos).2.1
    ∧ (refreshSingleLine plen cols editLen pos).2.2 =
        ((plen + (pos - (refreshSingleLine plen cols editLen pos).1) : Nat) : Int) := by
  obtain ⟨k, hk1, hk2, hk3⟩ :=
    refreshLoop1_spec plen cols h1 U64 pos editLen 0 h3 h4 (by omega)
  have hl2 :=
    refreshLoop2_spec plen cols h1 U64 (editLen - k) (by omega) (by omega)
  have hcur : pos - k < 2 ^ 63 := by omega
  unfold refreshSingleLine
  rw [hk2]
  simp only [Nat.zero_add]
  rw [hl2]
  unfold uintToInt
  rw [if_pos hcur]
  refine ⟨by omega, by omega, by omega, ?_⟩
  push_cast
  omega

/-- Witness for C5: the amended theorem applied at prompt width 1, 10
columns, 5 buffer bytes and the cursor at position 3. -/
theorem c5_window_spec_witness :
    ((1 : Nat) < 10 ∧ (10 : Nat) ≤ 2 ^ 63 ∧ (3 : Nat) ≤ 5 ∧ 1 + 5 < U64)
    ∧ (1 + (refreshSingleLine 1 10 5 3).2.1 ≤ 10
       ∧ (refreshSingleLine 1 10 5 3).1 ≤ 3
       ∧ 3 - (refreshSingleLine 1 10 5 3).1 ≤ (refreshSingleLine 1 10 5 3).2.1
       ∧ (refreshSingleLine 1 10 5 3).2.2 =
           ((1 + (3 - (refreshSingleLine 1 10 5 3).1) : Nat) : Int)) :=
  ⟨⟨by decide, by decide, by decide, by decide⟩,
    c5_window_spec 1 10 5 3 (by decide) (by decide) (by decide) (by decide)⟩

/-- Claim C5 counterexample: with a prompt of width 2 and a single-column
terminal (an empty buffer, cursor at 0), the `uint` decrements in the
first trimming loop underflow and the computed visible length is
`2^64 - 2`, so `promptLen + visibleLen ≤ columns` fails. -/
theorem c5_window_width_violated :
    (refreshSingleLine 2 1 0 0).2.1 = U64 - 2
    ∧ ¬ (2 + (refreshSingleLine 2 1 0 0).2.1 ≤ 1) := ⟨rfl, by decide⟩

end ClaimC5

section ClaimC6

/-- Claim C6 (code bug): `AddHistory` has an empty body, so after setting
`maxLength = 1` and adding the two distinct lines `"a"` and `"b"` the
store holds `[]`, not the most recent line `["b"]` promised by the claim
and by `AddHistory`'s own documentation comment. -/
theorem c6_addHistory_noop :
    (AddHistory (AddHistory (SetHistoryMaxLength NewLineNoise 1) "a") "b").history = []
    ∧ (["b"] : List String) ≠ [] := ⟨rfl, by simp⟩

end ClaimC6

section ClaimC7

/-- Claim C7 (code bug): `WriteHistoryToFile` writes nothing and
`LoadHistoryFromFile` reads nothing (both bodies are just `return nil`),
so saving a store holding `["a"]` and loading the resulting (empty) file
into a fresh store reproduces `[]`, not `["a"]` — the round-trip law
fails. -/
theorem c7_roundtrip_fails :
    (LoadHistoryFromFile NewLineNoise
        (WriteHistoryToFile { historyLen := 0, history := ["a"] } []).1).1.history = []
    ∧ (([] : List String) ≠ ["a"]) := ⟨rfl, by simp⟩

end ClaimC7

section ClaimC8

/-- Claim C8 (code bug): with the OS window-size query failing, a
position-probe reply `ESC [ R` that contains no `;` separator makes
`getCursorPosition` index `els[1]` out of range — a Go panic (`none`) —
instead of the claimed default of 80.  (An immediately failing read, by
contrast, does produce 80.) -/
theorem c8_malformed_reply_panics :
    getColumns false 0 [27, 91, 82] = none
    ∧ getColumns false 0 [] = some 80 := ⟨rfl, rfl⟩

end ClaimC8

section ClaimC10

/-- Claim C10: when standard input is not an interactive terminal,
`Readline` returns the buffered line — everything up to and including the
first newline byte, or the whole remaining input when the stream ends
before a newline — always with a `nil` error: end-of-input is never
signalled on this path. -/
theorem c10_noTTY (unsupported : Bool) (input : List Nat) :
    ReadlineFull false unsupported input = some (noTTY input, false)
    ∧ noTTY input =
        input.takeWhile (fun c => c != 10) ++
          (if input.contains 10 then [10] else []) := by
  constructor
  · simp [ReadlineFull]
  · induction input with
    | nil => simp [noTTY, readStringNewline]
    | cons c rest ih =>
      by_cases hc : c = 10
      · subst hc
        simp [noTTY, readStringNewline]
      · have hb : (c != 10) = true := by simpa using hc
        have h10 : ¬ ((10 : Nat) = c) := fun h => hc h.symm
        simp only [noTTY] at ih
        simp [noTTY, readStringNewline, hc, List.takeWhile_cons, hb, h10, ih]

/-- Witness for C10: the theorem applied to the concrete non-terminal
input stream `[97, 10, 98]` (a line, a newline, a following byte). -/
theorem c10_noTTY_witness :
    ReadlineFull false false [97, 10, 98] = some (noTTY [97, 10, 98], false)
    ∧ noTTY [97, 10, 98] =
        [97, 10, 98].takeWhile (fun c => c != 10) ++
          (if [97, 10, 98].contains 10 then [10] else []) :=
  c10_noTTY false [97, 10, 98]

end ClaimC10

end Linenoise
